import Mathlib

/-!
# Verification of the easyscout identity-resolution and credit-ledger engine

Shallow embedding of the parts of the `easyscout` backend that the frozen
claims are about:

* the credit ledger (`db_pg.py`: `spend_credits`, `refund_credits`,
  `get_balance`, `_ensure_user_row`), modelled as explicit state passing over
  an association-list database state, with the transaction rollback of the
  source modelled by returning the pre-call state;
* name normalization (`utils/normalize.py`), restricted to the ASCII fragment
  (the Unicode NFKC / combining-mark / transliteration library calls are the
  identity on ASCII; `unidecode` is kept as an oracle parameter);
* the phonetic key (`utils/phonetic.py`, the in-source consonant-skeleton
  fallback; the `jellyfish` library is absent);
* the nickname map (`utils/name_variants.py`);
* the fuzzy candidate scanner `_best_similar_report` and its helpers
  (`utils/similarity_matching.py`), with the wall clock modelled as an oracle
  stream of elapsed-time readings;
* the cached-report path of `get_or_generate_scout_report`
  (`services/scout.py`), with the LLM and markdown-rendering collaborators as
  oracles;
* cosine similarity (`utils/embeddings.py`), with floats modelled as `ℚ` and
  `math.sqrt` as an oracle.

The module `utils/name_matching.py` in the repository is corrupted
(syntactically invalid), so the symbols `similarity_matching.py` imports from
it (`_compute_name_similarity`, and the threshold constants) do not exist in
the sources; they are modelled from the spec where needed and marked as such.
The helper `_last_names_align` has a verbatim in-source definition inside
`utils/app_helpers.py` (`_best_similar_report`'s nested function), which is
used as the source for its embedding.
-/

namespace EasyScout

/-! ## Credit ledger (`db_pg.py`) -/

/-- A row of `public.credit_ledger`: user, signed delta, reason and the
idempotency key `(source_type, source_id)`. -/
structure LedgerEntry where
  user_id : String
  delta : Int
  reason : String
  source_type : String
  source_id : String
deriving DecidableEq, Repr

/-- The database state visible to the ledger operations: the
`public.user_credits` table (association list `user_id ↦ balance`) and the
append-only `public.credit_ledger` table. -/
structure DBState where
  credits : List (String × Int)
  ledger : List LedgerEntry
deriving DecidableEq, Repr

/-- `select balance from user_credits where user_id = u` (first matching row). -/
def findRow : List (String × Int) → String → Option Int
  | [], _ => none
  | (k, v) :: t, u => if k = u then some v else findRow t u

/-- `update user_credits set balance = b where user_id = u`. -/
def setRow : List (String × Int) → String → Int → List (String × Int)
  | [], _, _ => []
  | (k, v) :: t, u, b => if k = u then (k, b) :: setRow t u b else (k, v) :: setRow t u b

/-- `db_pg.get_balance`: the stored balance, `0` when the user has no row. -/
def get_balance (st : DBState) (u : String) : Int :=
  (findRow st.credits u).getD 0

/-- `db_pg._ensure_user_row`: `insert ... values (u, 0) on conflict do nothing`. -/
def ensure_user_row (st : DBState) (u : String) : DBState :=
  match findRow st.credits u with
  | some _ => st
  | none => { st with credits := st.credits ++ [(u, 0)] }

/-- Whether inserting a ledger row keyed `(source_type, source_id)` would hit
the global unique constraint (`UniqueViolation`). -/
def hasLedgerKey (st : DBState) (source_type source_id : String) : Bool :=
  st.ledger.any fun e => e.source_type == source_type && e.source_id == source_id

/-- The `ValueError`s raised by the ledger operations. -/
inductive CreditError where
  /-- `ValueError("amount must be > 0")` -/
  | amountNotPositive
  /-- `ValueError("source_type and source_id are required")` -/
  | sourceRequired
  /-- `ValueError("INSUFFICIENT_CREDITS")` -/
  | insufficientCredits
deriving DecidableEq, Repr

/-- `db_pg.spend_credits`: validate the arguments, then in one transaction
ensure the user row, conditionally decrement (`where balance >= amount`),
insert the ledger row, and commit; on `UniqueViolation` roll back and re-read
the committed balance; on insufficient balance roll back and raise.  The
returned state is the committed database state (a rollback returns the
pre-call state). -/
def spend_credits (st : DBState) (user_id : String) (amount : Int)
    (reason source_type source_id : String) : DBState × Except CreditError Int :=
  if amount ≤ 0 then (st, .error .amountNotPositive)
  else if source_type = "" ∨ source_id = "" then (st, .error .sourceRequired)
  else
    let st1 := ensure_user_row st user_id
    let bal := get_balance st1 user_id
    if amount ≤ bal then
      let st2 := { st1 with credits := setRow st1.credits user_id (bal - amount) }
      if hasLedgerKey st2 source_type source_id then
        (st, .ok (get_balance st user_id))
      else
        ({ st2 with ledger := st2.ledger ++ [⟨user_id, -amount, reason, source_type, source_id⟩] },
         .ok (bal - amount))
    else
      (st, .error .insufficientCredits)

/-- `db_pg.refund_credits`: validate the arguments, then in one transaction
ensure the user row, increment the balance, insert the ledger row, and commit;
on `UniqueViolation` roll back (undoing the increment) and re-read the
committed balance. -/
def refund_credits (st : DBState) (user_id : String) (amount : Int)
    (reason source_type source_id : String) : DBState × Except CreditError Int :=
  if amount ≤ 0 then (st, .error .amountNotPositive)
  else if source_type = "" ∨ source_id = "" then (st, .error .sourceRequired)
  else
    let st1 := ensure_user_row st user_id
    let bal := get_balance st1 user_id + amount
    let st2 := { st1 with credits := setRow st1.credits user_id bal }
    if hasLedgerKey st2 source_type source_id then
      (st, .ok (get_balance st user_id))
    else
      ({ st2 with ledger := st2.ledger ++ [⟨user_id, amount, reason, source_type, source_id⟩] },
       .ok bal)

/-! ### Basic ledger lemmas -/

theorem findRow_append_of_none {l : List (String × Int)} {u : String}
    (h : findRow l u = none) (l' : List (String × Int)) :
    findRow (l ++ l') u = findRow l' u := by
  induction l with
  | nil => rfl
  | cons p t ih =>
    obtain ⟨k, v⟩ := p
    by_cases hk : k = u
    · simp [findRow, hk] at h
    · rw [findRow, if_neg hk] at h
      rw [List.cons_append, findRow, if_neg hk]
      exact ih h

theorem findRow_setRow_self (l : List (String × Int)) (u : String) (b : Int) :
    findRow (setRow l u b) u = (findRow l u).map (fun _ => b) := by
  induction l with
  | nil => rfl
  | cons p t ih =>
    obtain ⟨k, v⟩ := p
    by_cases hk : k = u
    · simp [findRow, setRow, hk]
    · simp [findRow, setRow, hk, ih]

theorem findRow_ensure (st : DBState) (u : String) :
    findRow (ensure_user_row st u).credits u = some (get_balance st u) := by
  unfold ensure_user_row get_balance
  cases h : findRow st.credits u with
  | some v => simp [h]
  | none =>
    simp only [h]
    rw [findRow_append_of_none h]
    simp [findRow]

theorem get_balance_ensure (st : DBState) (u : String) :
    get_balance (ensure_user_row st u) u = get_balance st u := by
  unfold get_balance
  rw [findRow_ensure]
  rfl

theorem ensure_user_row_ledger (st : DBState) (u : String) :
    (ensure_user_row st u).ledger = st.ledger := by
  unfold ensure_user_row
  cases findRow st.credits u <;> rfl

theorem get_balance_set_of_row (st : DBState) (u : String) (b : Int)
    (h : (findRow st.credits u).isSome) :
    get_balance { st with credits := setRow st.credits u b } u = b := by
  unfold get_balance
  simp only [findRow_setRow_self]
  cases hr : findRow st.credits u with
  | none => rw [hr] at h; simp at h
  | some v => rfl

/-! ### Claims about the ledger -/

/-- **C1, counterexample.** The claim states that a repeated `spend_credits`
call with the same `(source_type, source_id)` "returns the current balance
unchanged".  With a starting balance of 5, `spend_credits` of 3 succeeds and
leaves balance 2; the retried call with the same source key then raises
`INSUFFICIENT_CREDITS` (the conditional decrement `where balance >= amount`
fails before the unique-constrained insert is ever attempted) instead of
returning the current balance. -/
theorem spend_retry_raises_instead_of_echoing_balance :
    (spend_credits ⟨[("u", 5)], []⟩ "u" 3 "gen" "scout" "req1").2 = .ok 2 ∧
    (spend_credits (spend_credits ⟨[("u", 5)], []⟩ "u" 3 "gen" "scout" "req1").1
        "u" 3 "gen" "scout" "req1").2 = .error .insufficientCredits := by
  exact ⟨rfl, rfl⟩

/-- **C1 (amended).** A repeated call with the same `(source_type, source_id)`
never re-applies the delta: starting from a state with no ledger entry for the
key, after a successful first `spend_credits` (resp. `refund_credits`) the
balance has changed by exactly `-amount` (resp. `+amount`), and the repeated
call leaves the state unchanged; the repeated `refund_credits` returns the
current balance, and the repeated `spend_credits` returns the current balance
provided the remaining balance still covers `amount`, raising
`INSUFFICIENT_CREDITS` (with no state change) otherwise. -/
theorem ledger_retry_idempotent
    (st stS stR : DBState) (u reason source_type source_id : String) (a bS bR : Int)
    (hfresh : hasLedgerKey st source_type source_id = false)
    (hS : spend_credits st u a reason source_type source_id = (stS, .ok bS))
    (hR : refund_credits st u a reason source_type source_id = (stR, .ok bR)) :
    (spend_credits stS u a reason source_type source_id =
        (stS, if a ≤ get_balance stS u then .ok (get_balance stS u)
              else .error .insufficientCredits)
      ∧ get_balance stS u = get_balance st u - a)
    ∧ (refund_credits stR u a reason source_type source_id =
        (stR, .ok (get_balance stR u))
      ∧ get_balance stR u = get_balance st u + a) := by
  have ha : ¬ a ≤ 0 := by
    intro h
    simp [spend_credits, h] at hS
  have hsrc : ¬ (source_type = "" ∨ source_id = "") := by
    intro h
    simp [spend_credits, ha, h] at hS
  have hrow : (findRow (ensure_user_row st u).credits u).isSome := by
    rw [findRow_ensure]; rfl
  have hkey1 : hasLedgerKey
      { ensure_user_row st u with
        credits := setRow (ensure_user_row st u).credits u
          (get_balance (ensure_user_row st u) u - a) } source_type source_id = false := by
    simpa [hasLedgerKey, ensure_user_row_ledger] using hfresh
  have hbalS : a ≤ get_balance (ensure_user_row st u) u := by
    by_contra hb
    simp [spend_credits, ha, hsrc, hb] at hS
  -- resolve the first spend call
  rw [spend_credits, if_neg ha, if_neg hsrc] at hS
  simp only [if_pos hbalS, hkey1] at hS
  simp only [Bool.false_eq_true, if_false, Prod.mk.injEq] at hS
  obtain ⟨hstS, hbS⟩ := hS
  -- resolve the first refund call
  have hkey2 : hasLedgerKey
      { ensure_user_row st u with
        credits := setRow (ensure_user_row st u).credits u
          (get_balance (ensure_user_row st u) u + a) } source_type source_id = false := by
    simpa [hasLedgerKey, ensure_user_row_ledger] using hfresh
  rw [refund_credits, if_neg ha, if_neg hsrc] at hR
  simp only [hkey2, Bool.false_eq_true, if_false, Prod.mk.injEq] at hR
  obtain ⟨hstR, hbR⟩ := hR
  have hgS : get_balance stS u = get_balance st u - a := by
    rw [← hstS]
    simp [get_balance, findRow_setRow_self, findRow_ensure]
  have hgR : get_balance stR u = get_balance st u + a := by
    rw [← hstR]
    simp [get_balance, findRow_setRow_self, findRow_ensure]
  have hrowS : findRow stS.credits u = some (get_balance st u - a) := by
    rw [← hstS]
    simp [get_balance, findRow_setRow_self, findRow_ensure]
  have hrowR : findRow stR.credits u = some (get_balance st u + a) := by
    rw [← hstR]
    simp [get_balance, findRow_setRow_self, findRow_ensure]
  have hensS : ensure_user_row stS u = stS := by
    unfold ensure_user_row
    rw [hrowS]
  have hensR : ensure_user_row stR u = stR := by
    unfold ensure_user_row
    rw [hrowR]
  have hkeyS : ∀ b : Int, hasLedgerKey { stS with credits := setRow stS.credits u b }
      source_type source_id = true := by
    intro b
    rw [← hstS]
    simp [hasLedgerKey, ensure_user_row_ledger]
  have hkeyR : ∀ b : Int, hasLedgerKey { stR with credits := setRow stR.credits u b }
      source_type source_id = true := by
    intro b
    rw [← hstR]
    simp [hasLedgerKey, ensure_user_row_ledger]
  refine ⟨⟨?_, hgS⟩, ⟨?_, hgR⟩⟩
  · -- retried spend
    rw [spend_credits, if_neg ha, if_neg hsrc]
    by_cases hb2 : a ≤ get_balance (ensure_user_row stS u) u
    · simp only [if_pos hb2, hensS, hkeyS, if_true]
      rw [hensS] at hb2
      simp [if_pos hb2]
    · simp only [if_neg hb2]
      rw [hensS] at hb2
      simp [if_neg hb2]
  · -- retried refund
    rw [refund_credits, if_neg ha, if_neg hsrc]
    simp only [hensR, hkeyR, if_true]

/-- **C1, witness.** The amended idempotency theorem applied at a concrete
state: user `"u"` with balance 5, spending and refunding 3 with source key
`("scout", "req1")`. -/
theorem ledger_retry_idempotent_witness :
    (spend_credits ⟨[("u", 5)], [⟨"u", -3, "gen", "scout", "req1"⟩]⟩
        "u" 3 "gen" "scout" "req1" =
      (⟨[("u", 5)], [⟨"u", -3, "gen", "scout", "req1"⟩]⟩,
        if (3 : Int) ≤ get_balance ⟨[("u", 5)], [⟨"u", -3, "gen", "scout", "req1"⟩]⟩ "u"
        then .ok (get_balance ⟨[("u", 5)], [⟨"u", -3, "gen", "scout", "req1"⟩]⟩ "u")
        else .error .insufficientCredits)
      ∧ get_balance (⟨[("u", 5)], [⟨"u", -3, "gen", "scout", "req1"⟩]⟩ : DBState) "u" =
          get_balance ⟨[("u", 8)], []⟩ "u" - 3)
    ∧ (refund_credits ⟨[("u", 11)], [⟨"u", 3, "gen", "scout", "req1"⟩]⟩
        "u" 3 "gen" "scout" "req1" =
      (⟨[("u", 11)], [⟨"u", 3, "gen", "scout", "req1"⟩]⟩,
        .ok (get_balance ⟨[("u", 11)], [⟨"u", 3, "gen", "scout", "req1"⟩]⟩ "u"))
      ∧ get_balance (⟨[("u", 11)], [⟨"u", 3, "gen", "scout", "req1"⟩]⟩ : DBState) "u" =
          get_balance ⟨[("u", 8)], []⟩ "u" + 3) :=
  ledger_retry_idempotent ⟨[("u", 8)], []⟩
    ⟨[("u", 5)], [⟨"u", -3, "gen", "scout", "req1"⟩]⟩
    ⟨[("u", 11)], [⟨"u", 3, "gen", "scout", "req1"⟩]⟩
    "u" "gen" "scout" "req1" 3 5 11 rfl rfl rfl

/-- **C2.** When the requested amount exceeds the (non-negative) stored
balance and the source key arguments are well-formed, `spend_credits` raises
`INSUFFICIENT_CREDITS` and the transaction rolls back: the returned state is
exactly the pre-call state, so no ledger entry is inserted and the balance is
unchanged. -/
theorem spend_insufficient_rolls_back
    (st : DBState) (u reason source_type source_id : String) (a : Int)
    (hst : source_type ≠ "") (hsi : source_id ≠ "")
    (hnn : 0 ≤ get_balance st u) (hlt : get_balance st u < a) :
    spend_credits st u a reason source_type source_id =
      (st, .error .insufficientCredits) := by
  have ha : ¬ a ≤ 0 := by omega
  have hsrc : ¬ (source_type = "" ∨ source_id = "") := by
    rintro (h | h) <;> [exact hst h; exact hsi h]
  have hb : ¬ a ≤ get_balance (ensure_user_row st u) u := by
    rw [get_balance_ensure]; omega
  rw [spend_credits, if_neg ha, if_neg hsrc]
  simp only [if_neg hb]

/-- **C2, witness.** A user with no credits row (balance 0) asked to spend 1
credit: the call errors with `INSUFFICIENT_CREDITS` and the state is
untouched. -/
theorem spend_insufficient_rolls_back_witness :
    spend_credits ⟨[], []⟩ "u" 1 "scout_generate" "scout" "req1" =
      (⟨[], []⟩, .error .insufficientCredits) :=
  spend_insufficient_rolls_back ⟨[], []⟩ "u" "scout_generate" "scout" "req1" 1
    (by decide) (by decide) (by decide) (by decide)

/-- **C10.** With `amount ≤ 0` or an empty `source_type` or `source_id`, both
`spend_credits` and `refund_credits` raise a `ValueError` in the validation
prologue, before any SQL statement runs: the returned state is the pre-call
state (no ledger entry, no balance change) and the error is one of the two
argument-validation errors, never `INSUFFICIENT_CREDITS`. -/
theorem ledger_validation_before_state
    (st : DBState) (u reason source_type source_id : String) (a : Int)
    (h : a ≤ 0 ∨ source_type = "" ∨ source_id = "") :
    spend_credits st u a reason source_type source_id =
      (st, .error (if a ≤ 0 then .amountNotPositive else .sourceRequired))
    ∧ refund_credits st u a reason source_type source_id =
      (st, .error (if a ≤ 0 then .amountNotPositive else .sourceRequired)) := by
  by_cases ha : a ≤ 0
  · simp [spend_credits, refund_credits, ha]
  · have hsrc : source_type = "" ∨ source_id = "" := by tauto
    simp [spend_credits, refund_credits, ha, hsrc]

/-- **C10, witness.** Zero amount: both operations reject with the
`amount must be > 0` error and return the state unchanged. -/
theorem ledger_validation_before_state_witness :
    spend_credits ⟨[("u", 4)], []⟩ "u" 0 "gen" "scout" "req1" =
      (⟨[("u", 4)], []⟩, .error (if (0 : Int) ≤ 0 then .amountNotPositive else .sourceRequired))
    ∧ refund_credits ⟨[("u", 4)], []⟩ "u" 0 "gen" "scout" "req1" =
      (⟨[("u", 4)], []⟩, .error (if (0 : Int) ≤ 0 then .amountNotPositive else .sourceRequired)) :=
  ledger_validation_before_state ⟨[("u", 4)], []⟩ "u" "gen" "scout" "req1" 0
    (Or.inl (by decide))

/-! ## Name normalizer (`utils/normalize.py`)

The embedding covers the ASCII fragment of the Unicode pipeline: on ASCII
text, `unicodedata.normalize("NFKC", ·)`, the NFD round-trip that strips
combining marks (category `Mn`), and `str.lower` beyond `A`–`Z` are all the
identity, so they are modelled accordingly; the external `unidecode`
transliteration is kept as an oracle parameter `translit`. -/

/-- Python `\s` (ASCII range): space and the control characters 9–13. -/
def isPySpace (c : Char) : Bool :=
  c.toNat == 32 || (decide (9 ≤ c.toNat) && decide (c.toNat ≤ 13))

/-- Python `\w` (ASCII range): digits, letters and underscore. -/
def isWordChar (c : Char) : Bool :=
  (decide (48 ≤ c.toNat) && decide (c.toNat ≤ 57)) ||
  (decide (65 ≤ c.toNat) && decide (c.toNat ≤ 90)) ||
  (decide (97 ≤ c.toNat) && decide (c.toNat ≤ 122)) ||
  c.toNat == 95

/-- Python `str.lower`, restricted to ASCII: map `A`–`Z` to `a`–`z`. -/
def lowerChar (c : Char) : Char :=
  if 65 ≤ c.toNat ∧ c.toNat ≤ 90 then Char.ofNat (c.toNat + 32) else c

/-- Remove trailing whitespace (the right half of Python `str.strip`). -/
def dropTrailWS : List Char → List Char
  | [] => []
  | c :: rest =>
    match dropTrailWS rest with
    | [] => if isPySpace c then [] else [c]
    | r => c :: r

/-- Python `str.strip`: drop leading and trailing whitespace. -/
def pyStrip (l : List Char) : List Char :=
  dropTrailWS (l.dropWhile isPySpace)

/-- `re.sub(r"\s+", " ", ·)`: collapse every whitespace run to one space. -/
def collapseWS : List Char → List Char
  | [] => []
  | [c] => if isPySpace c then [' '] else [c]
  | a :: b :: rest =>
    if isPySpace a && isPySpace b then collapseWS (b :: rest)
    else (if isPySpace a then ' ' else a) :: collapseWS (b :: rest)

/-- `normalize.normalize_name`, over the ASCII fragment: trim, (NFKC —
identity on ASCII), optional transliteration through the `translit` oracle,
(combining-mark stripping — identity on ASCII), lower-case, replace non-word
non-space characters by spaces, collapse whitespace runs, and trim again.
Empty input yields the empty string. -/
def normalize_nameT (translit : String → String) (s : String)
    (transliterate : Bool) : String :=
  if s = "" then ""
  else
    let l0 := pyStrip s.data
    let l1 := (if transliterate then translit ⟨l0⟩ else (⟨l0⟩ : String)).data
    let l2 := l1.map lowerChar
    let l3 := l2.map fun c => if isWordChar c || isPySpace c then c else ' '
    ⟨pyStrip (collapseWS l3)⟩

/-- `normalize_name` as used inside the matching engine, where every input the
claims exercise is ASCII (`unidecode` is the identity there). -/
def normalize_name (s : String) (transliterate : Bool := true) : String :=
  normalize_nameT id s transliterate

/-! ### Character-level lemmas -/

theorem toNat_ofNat_of_lt {n : Nat} (h : n < 0xd800) : (Char.ofNat n).toNat = n := by
  unfold Char.ofNat
  rw [dif_pos (Or.inl h)]
  rfl

theorem lowerChar_lowerChar (c : Char) : lowerChar (lowerChar c) = lowerChar c := by
  unfold lowerChar
  split
  · next h =>
    have ht : (Char.ofNat (c.toNat + 32)).toNat = c.toNat + 32 :=
      toNat_ofNat_of_lt (by omega)
    rw [if_neg (by rw [ht]; omega)]
  · rfl

theorem lowerChar_printable {c : Char} (h : 32 ≤ c.toNat ∧ c.toNat ≤ 126) :
    32 ≤ (lowerChar c).toNat ∧ (lowerChar c).toNat ≤ 126 := by
  unfold lowerChar
  split
  · next hc =>
    rw [toNat_ofNat_of_lt (by omega)]
    omega
  · exact h

theorem isPySpace_of_isWordChar {c : Char} (h : isWordChar c = true) :
    isPySpace c = false := by
  simp only [isWordChar, Bool.or_eq_true, Bool.and_eq_true, decide_eq_true_eq,
    beq_iff_eq] at h
  simp only [isPySpace, Bool.or_eq_false_iff, Bool.and_eq_false_iff,
    decide_eq_false_iff_not, beq_eq_false_iff_ne, ne_eq]
  omega

theorem isPySpace_space : isPySpace ' ' = true := by decide

theorem eq_space_of_toNat {c : Char} (h : c.toNat = 32) : c = ' ' := by
  exact Char.eq_of_val_eq (UInt32.ext h)

/-! ### Shape invariants of normalized text -/

/-- The head (if any) is not whitespace. -/
def headNotWS : List Char → Prop
  | [] => True
  | c :: _ => isPySpace c = false

/-- The last element (if any) is not whitespace. -/
def lastNotWS : List Char → Prop
  | [] => True
  | [c] => isPySpace c = false
  | _ :: c :: rest => lastNotWS (c :: rest)

/-- No two adjacent whitespace characters. -/
def noDoubleWS : List Char → Prop
  | a :: b :: rest => ¬(isPySpace a = true ∧ isPySpace b = true) ∧ noDoubleWS (b :: rest)
  | _ => True

theorem noDoubleWS_tail : ∀ {c : Char} {t : List Char},
    noDoubleWS (c :: t) → noDoubleWS t := by
  intro c t h
  cases t with
  | nil => trivial
  | cons b r => exact h.2

theorem noDoubleWS_cons {x : Char} {t : List Char} (ht : noDoubleWS t)
    (hx : isPySpace x = false ∨ headNotWS t) : noDoubleWS (x :: t) := by
  cases t with
  | nil => trivial
  | cons y r =>
    refine ⟨?_, ht⟩
    rintro ⟨hxw, hyw⟩
    rcases hx with h | h
    · rw [hxw] at h
      exact Bool.noConfusion h
    · have hy : isPySpace y = false := h
      rw [hyw] at hy
      exact Bool.noConfusion hy

theorem mem_dropTrailWS : ∀ {l : List Char} {c : Char}, c ∈ dropTrailWS l → c ∈ l := by
  intro l
  induction l with
  | nil => intro c h; exact absurd h (by simp [dropTrailWS])
  | cons a t ih =>
    intro c h
    rw [dropTrailWS] at h
    revert h
    cases hdt : dropTrailWS t with
    | nil =>
      intro h
      by_cases hws : isPySpace a = true
      · simp [hws] at h
      · simp [hws] at h
        simp [h]
    | cons x xs =>
      intro h
      rcases List.mem_cons.mp h with h1 | h1
      · simp [h1]
      · exact List.mem_cons_of_mem a (ih (by rw [hdt]; exact h1))

theorem mem_dropWhileWS {l : List Char} {c : Char}
    (h : c ∈ l.dropWhile isPySpace) : c ∈ l :=
  (List.dropWhile_sublist _).mem h

theorem mem_pyStrip {l : List Char} {c : Char} (h : c ∈ pyStrip l) : c ∈ l :=
  mem_dropWhileWS (mem_dropTrailWS h)

theorem mem_collapseWS : ∀ {l : List Char} {c : Char},
    c ∈ collapseWS l → c ∈ l ∨ c = ' ' := by
  intro l
  induction l with
  | nil => intro c h; exact absurd h (by simp [collapseWS])
  | cons a t ih =>
    intro c h
    cases t with
    | nil =>
      rw [collapseWS] at h
      by_cases hws : isPySpace a = true
      · simp [hws] at h
        exact Or.inr h
      · simp [hws] at h
        exact Or.inl (by simp [h])
    | cons b r =>
      rw [collapseWS] at h
      by_cases hab : (isPySpace a && isPySpace b) = true
      · rw [if_pos hab] at h
        rcases ih h with h1 | h1
        · exact Or.inl (List.mem_cons_of_mem a h1)
        · exact Or.inr h1
      · rw [if_neg hab] at h
        rcases List.mem_cons.mp h with h1 | h1
        · by_cases hwa : isPySpace a = true
          · simp [hwa] at h1
            exact Or.inr h1
          · simp [hwa] at h1
            exact Or.inl (by simp [h1])
        · rcases ih h1 with h2 | h2
          · exact Or.inl (List.mem_cons_of_mem a h2)
          · exact Or.inr h2

/-- Every whitespace character surviving `collapseWS` is a literal space. -/
theorem collapseWS_ws_space : ∀ {l : List Char} {c : Char},
    c ∈ collapseWS l → isPySpace c = true → c = ' ' := by
  intro l
  induction l with
  | nil => intro c h; exact absurd h (by simp [collapseWS])
  | cons a t ih =>
    intro c h hws
    cases t with
    | nil =>
      rw [collapseWS] at h
      by_cases hwa : isPySpace a = true
      · simp [hwa] at h
        exact h
      · simp [hwa] at h
        rw [h] at hws
        rw [hws] at hwa
        exact absurd rfl hwa
    | cons b r =>
      rw [collapseWS] at h
      by_cases hab : (isPySpace a && isPySpace b) = true
      · rw [if_pos hab] at h
        exact ih h hws
      · rw [if_neg hab] at h
        rcases List.mem_cons.mp h with h1 | h1
        · by_cases hwa : isPySpace a = true
          · simp [hwa] at h1
            exact h1
          · simp [hwa] at h1
            rw [h1] at hws
            rw [hws] at hwa
            exact absurd rfl hwa
        · exact ih h1 hws

theorem collapseWS_head_of_not_ws {b : Char} (hb : isPySpace b = false) :
    ∀ (r : List Char), headNotWS (collapseWS (b :: r)) := by
  intro r
  cases r with
  | nil =>
    rw [collapseWS, if_neg (by rw [hb]; exact Bool.false_ne_true)]
    exact hb
  | cons c r' =>
    rw [collapseWS, if_neg (by rw [hb]; simp)]
    show isPySpace (if isPySpace b then ' ' else b) = false
    rw [if_neg (by rw [hb]; exact Bool.false_ne_true)]
    exact hb

/-- `collapseWS` leaves no two adjacent whitespace characters. -/
theorem collapseWS_noDoubleWS : ∀ (l : List Char), noDoubleWS (collapseWS l) := by
  intro l
  induction l with
  | nil => trivial
  | cons a t ih =>
    cases t with
    | nil =>
      rw [collapseWS]
      cases hwa : isPySpace a
      · rw [if_neg Bool.false_ne_true]
        trivial
      · rw [if_pos rfl]
        trivial
    | cons b r =>
      rw [collapseWS]
      by_cases hab : (isPySpace a && isPySpace b) = true
      · rw [if_pos hab]
        exact ih
      · rw [if_neg hab]
        apply noDoubleWS_cons ih
        cases hwa : isPySpace a
        · left
          rw [if_neg Bool.false_ne_true]
          exact hwa
        · right
          have hb : isPySpace b = false := by
            cases hb' : isPySpace b
            · rfl
            · exact absurd (by rw [hwa, hb']; rfl) hab
          exact collapseWS_head_of_not_ws hb r

theorem noDoubleWS_dropWhileWS : ∀ {l : List Char}, noDoubleWS l →
    noDoubleWS (l.dropWhile isPySpace) := by
  intro l
  induction l with
  | nil => intro h; exact h
  | cons a t ih =>
    intro h
    cases hwa : isPySpace a
    · rwa [List.dropWhile_cons_of_neg (by rw [hwa]; exact Bool.false_ne_true)]
    · rw [List.dropWhile_cons_of_pos (by rw [hwa])]
      exact ih (noDoubleWS_tail h)

theorem dropTrailWS_head_eq : ∀ {c : Char} {rest : List Char} {x : Char} {xs : List Char},
    dropTrailWS (c :: rest) = x :: xs → x = c := by
  intro c rest x xs h
  rw [dropTrailWS] at h
  revert h
  cases dropTrailWS rest with
  | nil =>
    intro h
    by_cases hws : isPySpace c = true
    · rw [if_pos hws] at h
      exact absurd h (by simp)
    · rw [if_neg hws] at h
      exact (List.cons.injEq .. ▸ h).1.symm
  | cons y ys =>
    intro h
    exact ((List.cons.injEq .. ▸ h).1).symm

theorem noDoubleWS_dropTrailWS : ∀ {l : List Char}, noDoubleWS l →
    noDoubleWS (dropTrailWS l) := by
  intro l
  induction l with
  | nil => intro h; exact h
  | cons a t ih =>
    intro h
    rw [dropTrailWS]
    cases hdt : dropTrailWS t with
    | nil =>
      by_cases hws : isPySpace a = true
      · rw [if_pos hws]; trivial
      · rw [if_neg hws]; trivial
    | cons x xs =>
      have ht : noDoubleWS (x :: xs) := by
        rw [← hdt]
        exact ih (noDoubleWS_tail h)
      apply noDoubleWS_cons ht
      cases t with
      | nil => exact absurd hdt (by simp [dropTrailWS])
      | cons y t2 =>
        have hxy : x = y := dropTrailWS_head_eq hdt
        subst hxy
        cases hwa : isPySpace a
        · left; rfl
        · right
          show isPySpace x = false
          cases hwx : isPySpace x
          · rfl
          · exact absurd ⟨hwa, hwx⟩ h.1

theorem headNotWS_dropWhileWS : ∀ (l : List Char), headNotWS (l.dropWhile isPySpace) := by
  intro l
  induction l with
  | nil => trivial
  | cons a t ih =>
    cases hwa : isPySpace a
    · rw [List.dropWhile_cons_of_neg (by rw [hwa]; exact Bool.false_ne_true)]
      exact hwa
    · rw [List.dropWhile_cons_of_pos (by rw [hwa])]
      exact ih

theorem headNotWS_dropTrailWS : ∀ {l : List Char}, headNotWS l →
    headNotWS (dropTrailWS l) := by
  intro l h
  cases l with
  | nil => trivial
  | cons a t =>
    rw [dropTrailWS]
    cases dropTrailWS t with
    | nil =>
      by_cases hws : isPySpace a = true
      · rw [if_pos hws]; trivial
      · rw [if_neg hws]; exact h
    | cons x xs => exact h

theorem lastNotWS_dropTrailWS : ∀ (l : List Char), lastNotWS (dropTrailWS l) := by
  intro l
  induction l with
  | nil => trivial
  | cons a t ih =>
    rw [dropTrailWS]
    cases hdt : dropTrailWS t with
    | nil =>
      cases hws : isPySpace a
      · show lastNotWS (if false = true then [] else [a])
        rw [if_neg Bool.false_ne_true]
        exact hws
      · show lastNotWS (if true = true then [] else [a])
        rw [if_pos rfl]
        trivial
    | cons x xs =>
      show lastNotWS (a :: x :: xs)
      show lastNotWS (x :: xs)
      rw [← hdt]
      exact ih

/-! ### Identity of the pipeline on already-normalized text -/

theorem dropWhileWS_eq_self : ∀ {l : List Char}, headNotWS l →
    l.dropWhile isPySpace = l := by
  intro l h
  cases l with
  | nil => rfl
  | cons a t =>
    have h' : isPySpace a = false := h
    exact List.dropWhile_cons_of_neg (by rw [h']; exact Bool.false_ne_true)

theorem dropTrailWS_eq_self : ∀ {l : List Char}, lastNotWS l → dropTrailWS l = l := by
  intro l
  induction l with
  | nil => intro _; rfl
  | cons a t ih =>
    intro h
    rw [dropTrailWS]
    cases t with
    | nil =>
      have h' : isPySpace a = false := h
      show (if isPySpace a then [] else [a]) = [a]
      rw [if_neg (by rw [h']; exact Bool.false_ne_true)]
    | cons b r =>
      have ht : lastNotWS (b :: r) := h
      rw [ih ht]

theorem collapseWS_eq_self : ∀ {l : List Char}, noDoubleWS l →
    (∀ c ∈ l, isPySpace c = true → c = ' ') → collapseWS l = l := by
  intro l
  induction l with
  | nil => intro _ _; rfl
  | cons a t ih =>
    intro hnd hws
    cases t with
    | nil =>
      rw [collapseWS]
      cases hwa : isPySpace a
      · rw [if_neg Bool.false_ne_true]
      · rw [if_pos rfl, hws a (by simp) hwa]
    | cons b r =>
      rw [collapseWS]
      have hnab : (isPySpace a && isPySpace b) = false := by
        cases hwa : isPySpace a
        · rw [Bool.false_and]
        · cases hwb : isPySpace b
          · rw [Bool.and_false]
          · exact absurd ⟨hwa, hwb⟩ hnd.1
      rw [if_neg (by rw [hnab]; exact Bool.false_ne_true)]
      rw [ih (noDoubleWS_tail hnd) (fun c hc => hws c (List.mem_cons_of_mem a hc))]
      cases hwa : isPySpace a
      · rw [if_neg Bool.false_ne_true]
      · rw [if_pos rfl, hws a (by simp) hwa]

theorem map_eq_self_of_fix {l : List Char} {f : Char → Char}
    (h : ∀ c ∈ l, f c = c) : l.map f = l := by
  induction l with
  | nil => rfl
  | cons a t ih =>
    rw [List.map_cons, h a (by simp), ih (fun c hc => h c (List.mem_cons_of_mem a hc))]

/-- Characters of normalized output: word characters or single spaces, fixed
by lower-casing. -/
def cleanChar (c : Char) : Prop :=
  (isWordChar c = true ∨ c = ' ') ∧ lowerChar c = c

theorem cleanChar_printable {c : Char} (h : cleanChar c) :
    32 ≤ c.toNat ∧ c.toNat ≤ 126 := by
  rcases h.1 with hw | hsp
  · simp only [isWordChar, Bool.or_eq_true, Bool.and_eq_true, decide_eq_true_eq,
      beq_iff_eq] at hw
    omega
  · subst hsp
    exact ⟨by decide, by decide⟩

theorem cleanChar_not_ws_or_space {c : Char} (h : cleanChar c) :
    isPySpace c = true → c = ' ' := by
  intro hws
  rcases h.1 with hw | hsp
  · rw [isPySpace_of_isWordChar hw] at hws
    exact Bool.noConfusion hws
  · exact hsp

/-- The character-level pipeline of `normalize_name` after the strip and
transliteration steps, as applied to the character list `l1`. -/
def asciiPipeline (l1 : List Char) : List Char :=
  pyStrip (collapseWS ((l1.map lowerChar).map
    fun c => if isWordChar c || isPySpace c then c else ' '))

theorem asciiPipeline_clean {l1 : List Char}
    (h : ∀ c ∈ l1, 32 ≤ c.toNat ∧ c.toNat ≤ 126) :
    ∀ c ∈ asciiPipeline l1, cleanChar c := by
  intro c hc
  have hc1 : c ∈ collapseWS ((l1.map lowerChar).map
      fun c => if isWordChar c || isPySpace c then c else ' ') := mem_pyStrip hc
  rcases mem_collapseWS hc1 with h3 | h3
  · obtain ⟨d, hd, rfl⟩ := List.mem_map.mp h3
    obtain ⟨e, he, rfl⟩ := List.mem_map.mp hd
    have hpre := h e he
    have hplow := lowerChar_printable hpre
    by_cases hw : (isWordChar (lowerChar e) || isPySpace (lowerChar e)) = true
    · rw [if_pos hw]
      rcases Bool.or_eq_true _ _ ▸ hw with hw1 | hw1
      · exact ⟨Or.inl hw1, lowerChar_lowerChar e⟩
      · -- a printable whitespace character is a space
        have h32 : (lowerChar e).toNat = 32 := by
          simp only [isPySpace, Bool.or_eq_true, Bool.and_eq_true,
            decide_eq_true_eq, beq_iff_eq] at hw1
          omega
        have hsp := eq_space_of_toNat h32
        rw [hsp]
        exact ⟨Or.inr rfl, by decide⟩
    · rw [if_neg hw]
      exact ⟨Or.inr rfl, by decide⟩
  · subst h3
    exact ⟨Or.inr rfl, by decide⟩

theorem asciiPipeline_shape (l3 : List Char) :
    headNotWS (asciiPipeline l3) ∧ lastNotWS (asciiPipeline l3) ∧
    noDoubleWS (asciiPipeline l3) := by
  unfold asciiPipeline pyStrip
  exact ⟨headNotWS_dropTrailWS (headNotWS_dropWhileWS _),
    lastNotWS_dropTrailWS _,
    noDoubleWS_dropTrailWS (noDoubleWS_dropWhileWS (collapseWS_noDoubleWS _))⟩

theorem asciiPipeline_eq_self {l : List Char} (hcl : ∀ c ∈ l, cleanChar c)
    (hh : headNotWS l) (hl : lastNotWS l) (hnd : noDoubleWS l) :
    asciiPipeline l = l := by
  unfold asciiPipeline
  rw [map_eq_self_of_fix (fun c hc => (hcl c hc).2)]
  rw [map_eq_self_of_fix (f := fun c => if isWordChar c || isPySpace c then c else ' ')
    (fun c hc => ?_)]
  · rw [collapseWS_eq_self hnd (fun c hc => cleanChar_not_ws_or_space (hcl c hc))]
    unfold pyStrip
    rw [dropWhileWS_eq_self hh, dropTrailWS_eq_self hl]
  · rcases (hcl c hc).1 with hw | hsp
    · show (if (isWordChar c || isPySpace c) = true then c else ' ') = c
      rw [if_pos (by rw [hw]; rfl)]
    · subst hsp
      show (if (isWordChar ' ' || isPySpace ' ') = true then ' ' else ' ') = ' '
      rw [if_pos (by decide)]

theorem normalize_nameT_eq (translit : String → String) (s : String) (b : Bool)
    (h : s ≠ "") :
    normalize_nameT translit s b =
      ⟨asciiPipeline ((if b then translit ⟨pyStrip s.data⟩
        else (⟨pyStrip s.data⟩ : String)).data)⟩ := by
  rw [normalize_nameT, if_neg h]
  rfl

/-- **C6.** Re-applying `normalize_name` is the identity on its output, for
every ASCII-printable input and any transliteration oracle that is the
identity on ASCII-printable text (as `unidecode` is); moreover on such input
the result does not depend on the `transliterate` flag. -/
theorem normalize_name_idempotent_ascii (translit : String → String)
    (htr : ∀ t : String, (∀ c ∈ t.data, 32 ≤ c.toNat ∧ c.toNat ≤ 126) → translit t = t)
    (s : String) (hs : ∀ c ∈ s.data, 32 ≤ c.toNat ∧ c.toNat ≤ 126) (b b' : Bool) :
    normalize_nameT translit (normalize_nameT translit s b) b' =
      normalize_nameT translit s b
    ∧ normalize_nameT translit s true = normalize_nameT translit s false := by
  have hl0 : ∀ c ∈ pyStrip s.data, 32 ≤ c.toNat ∧ c.toNat ≤ 126 :=
    fun c hc => hs c (mem_pyStrip hc)
  have htr0 : translit ⟨pyStrip s.data⟩ = ⟨pyStrip s.data⟩ := htr _ hl0
  have htoggle : normalize_nameT translit s true = normalize_nameT translit s false := by
    by_cases hse : s = ""
    · rw [normalize_nameT, normalize_nameT, if_pos hse, if_pos hse]
    · rw [normalize_nameT_eq translit s true hse,
        normalize_nameT_eq translit s false hse]
      have h1 : (if (true : Bool) then translit ⟨pyStrip s.data⟩
          else (⟨pyStrip s.data⟩ : String)) = translit ⟨pyStrip s.data⟩ := rfl
      have h2 : (if (false : Bool) then translit ⟨pyStrip s.data⟩
          else (⟨pyStrip s.data⟩ : String)) = ⟨pyStrip s.data⟩ := rfl
      rw [h1, h2, htr0]
  refine ⟨?_, htoggle⟩
  by_cases hse : s = ""
  · have h0 : normalize_nameT translit s b = "" := by
      rw [normalize_nameT, if_pos hse]
    rw [h0, normalize_nameT, if_pos rfl]
  · have hdata : (normalize_nameT translit s b).data = asciiPipeline (pyStrip s.data) := by
      rw [normalize_nameT_eq translit s b hse]
      cases b
      · rfl
      · show (⟨asciiPipeline (translit ⟨pyStrip s.data⟩).data⟩ : String).data = _
        rw [htr0]
    have hcl : ∀ c ∈ (normalize_nameT translit s b).data, cleanChar c := by
      rw [hdata]; exact asciiPipeline_clean hl0
    have hshape := asciiPipeline_shape (pyStrip s.data)
    have hh : headNotWS (normalize_nameT translit s b).data := by
      rw [hdata]; exact hshape.1
    have hl : lastNotWS (normalize_nameT translit s b).data := by
      rw [hdata]; exact hshape.2.1
    have hnd : noDoubleWS (normalize_nameT translit s b).data := by
      rw [hdata]; exact hshape.2.2
    by_cases hoe : normalize_nameT translit s b = ""
    · rw [hoe, normalize_nameT, if_pos rfl]
    · rw [normalize_nameT_eq translit _ b' hoe]
      have hps : pyStrip (normalize_nameT translit s b).data
          = (normalize_nameT translit s b).data := by
        unfold pyStrip
        rw [dropWhileWS_eq_self hh, dropTrailWS_eq_self hl]
      have heta : (⟨(normalize_nameT translit s b).data⟩ : String)
          = normalize_nameT translit s b := rfl
      have htrO : translit (normalize_nameT translit s b)
          = normalize_nameT translit s b :=
        htr _ (fun c hc => cleanChar_printable (hcl c hc))
      have hinner : ((if b' then translit ⟨pyStrip (normalize_nameT translit s b).data⟩
          else (⟨pyStrip (normalize_nameT translit s b).data⟩ : String)) : String).data
          = (normalize_nameT translit s b).data := by
        rw [hps]
        cases b'
        · rfl
        · show (translit ⟨(normalize_nameT translit s b).data⟩).data = _
          rw [heta, htrO]
      rw [hinner, asciiPipeline_eq_self hcl hh hl hnd]

/-- **C6, witness.** Idempotence and transliteration-insensitivity at the
concrete ASCII input `"  John   Smith Jr.  "` with the identity oracle. -/
theorem normalize_name_idempotent_ascii_witness :
    normalize_nameT id (normalize_nameT id "  John   Smith Jr.  " true) true =
      normalize_nameT id "  John   Smith Jr.  " true
    ∧ normalize_nameT id "  John   Smith Jr.  " true =
        normalize_nameT id "  John   Smith Jr.  " false :=
  normalize_name_idempotent_ascii id (fun _ _ => rfl) "  John   Smith Jr.  "
    (by decide) true true

/-! ## Phonetic key (`utils/phonetic.py`)

The `jellyfish` metaphone library is optional and absent; the embedded
function is the in-source fallback: consonant skeleton with collapsed
repeats. -/

def isVowel (c : Char) : Bool :=
  c = 'a' || c = 'e' || c = 'i' || c = 'o' || c = 'u'

/-- `re.sub(r"(.)\1+", r"\1", ·)`: collapse runs of a repeated character. -/
def collapseRepeats : List Char → List Char
  | [] => []
  | [c] => [c]
  | a :: b :: rest =>
    if a = b then collapseRepeats (b :: rest) else a :: collapseRepeats (b :: rest)

/-- `phonetic.phonetic_key` (fallback branch): strip and lower-case, drop
vowels and whitespace (`re.sub(r"[aeiou\s]+", "", ·)`), collapse repeated
letters.  Empty input yields the empty string. -/
def phonetic_key (s : String) : String :=
  if s = "" then ""
  else
    let l := (pyStrip s.data).map lowerChar
    ⟨collapseRepeats (l.filter fun c => !(isVowel c || isPySpace c))⟩

/-! ## Nickname canonicalizer (`utils/name_variants.py`) -/

/-- `NICKNAME_MAP`, verbatim from `utils/name_variants.py`. -/
def NICKNAME_MAP : List (String × String) :=
  [("kostas", "konstantinos"), ("kotsas", "konstantinos"),
   ("kostaras", "konstantinos"), ("kostis", "konstantinos"),
   ("konsta", "konstantinos"),
   ("gianis", "giannis"), ("yianis", "giannis"), ("gannis", "giannis"),
   ("ken", "kenneth"), ("kenny", "kenneth"), ("bob", "robert"),
   ("bobby", "robert"), ("bill", "william"), ("billy", "william"),
   ("mike", "michael"), ("mikey", "michael"), ("chris", "christopher"),
   ("tony", "anthony"), ("joe", "joseph"), ("joey", "joseph"),
   ("dan", "daniel"), ("danny", "daniel"), ("dave", "david"),
   ("matt", "matthew"), ("matty", "matthew"), ("steve", "steven"),
   ("stevie", "steven"), ("jim", "james"), ("jimmy", "james"),
   ("tom", "thomas"), ("tommy", "thomas"), ("will", "william"),
   ("willie", "william"), ("luca", "luka")]

/-- `NICKNAME_MAP.get(x, x)`: canonical first name, the input itself on a
lookup miss. -/
def nickCanon (x : String) : String :=
  ((NICKNAME_MAP.find? fun p => p.1 == x).map Prod.snd).getD x

/-! ## Token similarity

`similarity_matching.py` imports `_compute_name_similarity` from
`utils/name_matching.py`, which is corrupted in the repository, and otherwise
scores with `rapidfuzz` (optional dependency) or `difflib.SequenceMatcher`
(standard library) — all external to the sources under `src/`. -/

/-- Number of positions at which the two lists agree. -/
def matchCount : List Char → List Char → Nat
  | a :: as, b :: bs => (if a = b then 1 else 0) + matchCount as bs
  | _, _ => 0

/-- Modelled from the spec: the 0–100 "naive sequence-similarity ratio" of
§4.4, standing in for the missing `_compute_name_similarity` of the corrupted
`utils/name_matching.py` and for the external ratio libraries
(`difflib.SequenceMatcher` / `rapidfuzz`) at the scanner's other scoring
sites.  Two equal strings score 100 (also two empty strings, as in
`difflib`), and no pair scores above 100. -/
def seqRatio100 (a b : String) : Nat :=
  let t := a.data.length + b.data.length
  if t = 0 then 100 else 2 * matchCount a.data b.data * 100 / t

/-! ## Whitespace splitting (Python `str.split()`) -/

def splitWSAux : List Char → List Char → List String
  | [], acc => if acc.isEmpty then [] else [⟨acc.reverse⟩]
  | c :: rest, acc =>
    if isPySpace c then
      (if acc.isEmpty then splitWSAux rest [] else ⟨acc.reverse⟩ :: splitWSAux rest [])
    else splitWSAux rest (c :: acc)

/-- Python `str.split()` with no separator: split on whitespace runs and drop
empty fields. -/
def pySplit (s : String) : List String :=
  splitWSAux s.data []

/-! ## Alignment scorer (`similarity_matching._compute_alignment`) -/

structure Alignment where
  first_p : String
  first_n : String
  last_p : String
  last_n : String
  first_sim : Nat
  last_sim : Nat
deriving DecidableEq, Repr

/-- `_compute_alignment` (similarity_matching.py lines 274–309): score the
direct alignment (first-vs-first, last-vs-last) and the crossed alignment
(first-vs-last, last-vs-first), and keep whichever has the larger weighted
score `lastSim * 2 + firstSim` (the crossed one only when strictly larger). -/
def compute_alignment (p_norm n_norm : String) : Alignment :=
  let p_parts := pySplit p_norm
  let n_parts := pySplit n_norm
  let first_p := p_parts.headD ""
  let last_p := p_parts.getLastD ""
  let first_n := n_parts.headD ""
  let last_n := n_parts.getLastD ""
  let first_sim_direct := seqRatio100 first_p first_n
  let last_sim_direct := seqRatio100 last_p last_n
  let score_direct := last_sim_direct * 2 + first_sim_direct
  let first_sim_cross := seqRatio100 first_p last_n
  let last_sim_cross := seqRatio100 last_p first_n
  let score_cross := last_sim_cross * 2 + first_sim_cross
  if score_cross > score_direct then
    ⟨first_p, last_n, last_p, first_n, first_sim_cross, last_sim_cross⟩
  else
    ⟨first_p, first_n, last_p, last_n, first_sim_direct, last_sim_direct⟩

/-! ## Surname alignment guard

`similarity_matching.py` imports `_last_names_align` from the corrupted
`utils/name_matching.py`; the verbatim in-source definition of the same
helper lives nested inside `utils/app_helpers.py` (`_best_similar_report`,
lines 427–470) and is the source of this embedding.  An `IndexError` on an
all-whitespace name is caught by the enclosing `try` and yields `False`. -/
def last_names_align (a_norm b_norm : String) : Bool :=
  match (if a_norm = "" then some "" else (pySplit a_norm).getLast?),
        (if b_norm = "" then some "" else (pySplit b_norm).getLast?) with
  | some al, some bl =>
    let a_last : String := ⟨pyStrip al.data⟩
    let b_last : String := ⟨pyStrip bl.data⟩
    if a_last = "" ∨ b_last = "" then false
    else if a_last = b_last then true
    -- NFD + combining-mark strip + lower: lower-casing on ASCII
    else if (⟨a_last.data.map lowerChar⟩ : String) = ⟨b_last.data.map lowerChar⟩ then true
    else if phonetic_key a_last ≠ "" ∧ phonetic_key b_last ≠ "" ∧
        phonetic_key a_last = phonetic_key b_last then true
    else
      let sim := seqRatio100 ⟨a_last.data.map lowerChar⟩ ⟨b_last.data.map lowerChar⟩
      let len_diff := max a_last.length b_last.length - min a_last.length b_last.length
      if 90 ≤ sim ∧ len_diff ≤ 2 then true else false
  | _, _ => false

/-! ## Fuzzy candidate scanner (`similarity_matching._best_similar_report`)

Modelling notes, all traceable in the source:
* `list_reports` rows carry `id`, `player_name`, `team`, `league` (the fields
  the scanner reads); the candidate list is a parameter (the database read).
* `time.monotonic() - started` is modelled by the oracle `getClock`, one
  reading per loop iteration, compared against the `FUZZY_TIMEOUT_SECS`
  budget `max_secs`.
* The embedding pre-check (lines 311–402) calls
  `find_nearest(client, player, top_k=3)` against the signature
  `find_nearest(conn, client, text, top_k=3)` of `utils/embeddings.py`;
  every such call raises `TypeError`, each is caught, so `tops` is always
  empty and the phase is a no-op.
* `rapidfuzz` and `jellyfish` are optional dependencies, absent: the token
  scores take the `difflib.SequenceMatcher` fallback branches, modelled by
  the spec's naive ratio `seqRatio100`.
* `get_report`/`get_balance` on the auto path are modelled by the oracle
  `getReport` (exception → the scanner returns `None`; falsy payload → fall
  through; payload found → auto).  The auto payload is summarized by the
  report id and score. -/

structure Candidate where
  id : Int
  player_name : String
  team : String
  league : String
deriving DecidableEq, Repr

inductive ScanResult where
  | auto (reportId : Int) (score : Int)
  | suggest (reportId : Int) (playerName : String) (score : Int)
deriving DecidableEq, Repr

inductive ReportFetch where
  | errored
  | missing
  | found
deriving DecidableEq, Repr

/-- Matching thresholds of `utils/app_helpers.py` lines 175–177 at their
defaults (environment overrides not modelled). -/
def FIRSTNAME_REQUIRE : Int := 90

def FIRSTNAME_SECONDARY : Int := 70

def LASTNAME_HIGH : Int := 95

/-- `.strip().lower()` of an optional text field. -/
def stripLower (s : String) : String :=
  ⟨(pyStrip s.data).map lowerChar⟩

/-- Python `a.startswith(b)`. -/
def pyStartswith (a b : String) : Bool :=
  b.data.isPrefixOf a.data

/-- The surname-collision cap (similarity_matching.py lines 454–474): when
the alignment has high or exact last-name agreement but the canonicalized
first names differ, are not prefix-compatible, and have similarity below 80,
cap the token score at `suggest_threshold - 1`. -/
def capSurname (player_norm name_norm : String) (suggest_threshold score : Int) : Int :=
  let aln := compute_alignment player_norm name_norm
  if 75 ≤ aln.last_sim ∨ aln.last_p = aln.last_n then
    if nickCanon aln.first_p ≠ nickCanon aln.first_n ∧ (aln.first_sim : Int) < 80 ∧
        ¬(pyStartswith aln.first_p aln.first_n ∨ pyStartswith aln.first_n aln.first_p) then
      min score (suggest_threshold - 1)
    else score
  else score

/-- One candidate of the exact-match phase (lines 201–270): non-empty name,
exact or nickname-canonical equality with typo/phonetic-tolerant surname,
league/team filters, and the surname-alignment guard. -/
def exactCandidateHit (transliterate : Bool)
    (player_norm player_first_canon player_last league_norm team_norm : String)
    (c : Candidate) : Bool :=
  let name_raw : String := ⟨pyStrip c.player_name.data⟩
  if name_raw = "" then false
  else
    let name_norm := normalize_name name_raw transliterate
    let is_exact : Bool :=
      if player_norm = name_norm then true
      else
        let name_parts := pySplit name_norm
        let name_first := name_parts.headD ""
        let name_last := name_parts.getLastD ""
        let last_name_match : Bool :=
          if player_last = name_last then true
          else if phonetic_key player_last ≠ "" ∧ phonetic_key name_last ≠ "" ∧
              phonetic_key player_last = phonetic_key name_last then true
          else if 5 ≤ player_last.length ∧ 5 ≤ name_last.length ∧
              85 ≤ seqRatio100 player_last name_last then true
          else false
        last_name_match && (player_first_canon == nickCanon name_first)
    if !is_exact then false
    else
      let cand_league := stripLower c.league
      let cand_team := stripLower c.team
      if league_norm ≠ "" ∧ cand_league ≠ "" ∧ league_norm ≠ cand_league then false
      else if team_norm ≠ "" ∧ cand_team ≠ "" ∧ team_norm ≠ cand_team then false
      else last_names_align player_norm name_norm

inductive ExactOutcome where
  | timeout
  | found (reportId : Int) (nameRaw : String)
  | proceed (k : Nat)
deriving DecidableEq, Repr

/-- The exact-match loop: per iteration, one clock check against the budget
(`return None` on excess), then the candidate test; the first hit returns
immediately. -/
def exactScan (getClock : Nat → ℚ) (max_secs : ℚ) (transliterate : Bool)
    (player_norm player_first_canon player_last league_norm team_norm : String) :
    List Candidate → Nat → ExactOutcome
  | [], k => .proceed k
  | c :: rest, k =>
    if getClock k > max_secs then .timeout
    else if exactCandidateHit transliterate player_norm player_first_canon player_last
        league_norm team_norm c then
      .found c.id ⟨pyStrip c.player_name.data⟩
    else
      exactScan getClock max_secs transliterate player_norm player_first_canon player_last
        league_norm team_norm rest (k + 1)

/-- One candidate of the fuzzy loop (lines 407–590): token score, league
filter, surname-collision cap, best tracking, then the reduced-name,
phonetic, and consonant-skeleton boost/cap blocks. -/
def fuzzyStep (league_norm team_norm : String) (suggest_threshold : Int)
    (player_norm : String) (transliterate : Bool)
    (st : Option (Int × String) × Int) (c : Candidate) :
    Option (Int × String) × Int :=
  let best := st.1
  let best_score := st.2
  let name_raw : String := ⟨pyStrip c.player_name.data⟩
  if name_raw = "" then (best, best_score)
  else
    let name_norm := normalize_name name_raw transliterate
    let score0 : Int := (seqRatio100 player_norm name_norm : Int)
    let cand_league := stripLower c.league
    if league_norm ≠ "" ∧ cand_league ≠ "" ∧ league_norm ≠ cand_league then
      (best, best_score)
    else
      let s1 := capSurname player_norm name_norm suggest_threshold score0
      let best1 := if s1 > best_score then some (c.id, name_raw) else best
      let bs1 := if s1 > best_score then s1 else best_score
      let pn_parts := pySplit player_norm
      let nn_parts := pySplit name_norm
      if ¬(2 ≤ pn_parts.length ∧ 2 ≤ nn_parts.length) then (best1, bs1)
      else
        let first_p := pn_parts.headD ""
        let lp := pn_parts.getLastD ""
        let first_n := nn_parts.headD ""
        let ln := nn_parts.getLastD ""
        let p_reduced := first_p ++ " " ++ lp
        let n_reduced := first_n ++ " " ++ ln
        let red_score : Int := (seqRatio100 p_reduced n_reduced : Int)
        let first_sim : Int := (seqRatio100 first_p first_n : Int)
        let last_sim : Int := (seqRatio100 lp ln : Int)
        let cand_team := stripLower c.team
        let have_team_or_league :=
          (league_norm ≠ "" ∧ cand_league ≠ "" ∧ league_norm = cand_league) ∨
          (team_norm ≠ "" ∧ cand_team ≠ "" ∧ team_norm = cand_team)
        let strong_last := 85 ≤ last_sim ∨ lp = ln
        let strong_first := 60 ≤ first_sim ∨ first_p = first_n ∨
          nickCanon first_p = nickCanon first_n
        -- reduced-name boost/cap
        let step2 : Option (Int × String) × Int × Int :=
          if 80 ≤ red_score ∧ strong_last then
            if strong_first ∨ have_team_or_league then
              (if max s1 88 > bs1 then (some (c.id, name_raw), max s1 88, s1)
               else (best1, bs1, s1))
            else (best1, bs1, min s1 (suggest_threshold - 1))
          else (best1, bs1, s1)
        let best2 := step2.1
        let bs2 := step2.2.1
        let s2 := step2.2.2
        -- phonetic boost/cap, else consonant-skeleton boost/cap
        let step3 : Option (Int × String) × Int :=
          if phonetic_key lp ≠ "" ∧ phonetic_key ln ≠ "" ∧
              phonetic_key lp = phonetic_key ln then
            if strong_first ∨ have_team_or_league then
              (if max s2 88 > bs2 then (some (c.id, name_raw), max s2 88)
               else (best2, bs2))
            else (best2, bs2)
          else
            let sk_p : String := ⟨lp.data.filter fun c => !isVowel c⟩
            let sk_n : String := ⟨ln.data.filter fun c => !isVowel c⟩
            if 55 ≤ (seqRatio100 sk_p sk_n : Int) then
              if strong_first ∨ have_team_or_league then
                (if max s2 86 > bs2 then (some (c.id, name_raw), max s2 86)
                 else (best2, bs2))
              else (best2, bs2)
            else (best2, bs2)
        step3

/-- The fuzzy loop with its per-iteration clock check; `none` is the timeout
(`return None`). -/
def fuzzyScan (getClock : Nat → ℚ) (max_secs : ℚ) (league_norm team_norm : String)
    (suggest_threshold : Int) (player_norm : String) (transliterate : Bool) :
    List Candidate → Nat → Option (Int × String) × Int →
    Option (Option (Int × String) × Int)
  | [], _, st => some st
  | c :: rest, k, st =>
    if getClock k > max_secs then none
    else
      fuzzyScan getClock max_secs league_norm team_norm suggest_threshold player_norm
        transliterate rest (k + 1)
        (fuzzyStep league_norm team_norm suggest_threshold player_norm transliterate st c)

/-- Classify the best fuzzy candidate (lines 592–645): auto when the score
reaches `auto_threshold` and the payload loads, otherwise the first-name and
surname safety checks gate a suggestion. -/
def finishScan (getReport : Int → ReportFetch) (auto_threshold suggest_threshold : Int)
    (player_norm : String) (best : Option (Int × String)) (best_score : Int) :
    Option ScanResult :=
  match best with
  | none => none
  | some (rid, name_raw) =>
    let autoRes : Option (Option ScanResult) :=
      if auto_threshold ≤ best_score then
        match getReport rid with
        | .errored => some none
        | .found => some (some (.auto rid best_score))
        | .missing => none
      else none
    match autoRes with
    | some r => r
    | none =>
      let aln := compute_alignment player_norm (normalize_name name_raw true)
      if ¬(FIRSTNAME_REQUIRE ≤ (aln.first_sim : Int) ∨
          (LASTNAME_HIGH ≤ best_score ∧ FIRSTNAME_SECONDARY ≤ (aln.first_sim : Int))) then
        none
      else if ¬ last_names_align player_norm (normalize_name name_raw true) then none
      else if suggest_threshold ≤ best_score then some (.suggest rid name_raw best_score)
      else none

/-- `_best_similar_report` (similarity_matching.py lines 152–645). -/
def best_similar_report (getClock : Nat → ℚ) (getReport : Int → ReportFetch)
    (candidates : List Candidate) (player team league : String)
    (auto_threshold : Int := 95) (suggest_threshold : Int := 85)
    (max_secs : ℚ := 3) (transliterate : Bool := true) : Option ScanResult :=
  if (⟨pyStrip player.data⟩ : String) = "" then none
  else
    let player_norm := normalize_name player transliterate
    if candidates.isEmpty then none
    else
      let league_norm := stripLower league
      let team_norm := stripLower team
      let player_parts := pySplit player_norm
      let player_first_canon := nickCanon (player_parts.headD "")
      let player_last := player_parts.getLastD ""
      match exactScan getClock max_secs transliterate player_norm player_first_canon
          player_last league_norm team_norm candidates 0 with
      | .timeout => none
      | .found rid nameRaw => some (.suggest rid nameRaw 100)
      | .proceed k =>
        match fuzzyScan getClock max_secs league_norm team_norm suggest_threshold
            player_norm transliterate candidates k (none, 0) with
        | none => none
        | some st => finishScan getReport auto_threshold suggest_threshold player_norm st.1 st.2

/-! ### Similarity-ratio lemmas -/

theorem matchCount_le_left : ∀ (a b : List Char), matchCount a b ≤ a.length := by
  intro a
  induction a with
  | nil => intro b; rw [matchCount.eq_def]; cases b <;> simp
  | cons x xs ih =>
    intro b
    cases b with
    | nil => rw [matchCount.eq_def]; simp
    | cons y ys =>
      rw [matchCount]
      have := ih ys
      by_cases h : x = y <;> simp [h] <;> omega

theorem matchCount_le_right : ∀ (a b : List Char), matchCount a b ≤ b.length := by
  intro a
  induction a with
  | nil => intro b; rw [matchCount.eq_def]; cases b <;> simp
  | cons x xs ih =>
    intro b
    cases b with
    | nil => rw [matchCount.eq_def]; simp
    | cons y ys =>
      rw [matchCount]
      have := ih ys
      by_cases h : x = y <;> simp [h] <;> omega

theorem matchCount_self : ∀ (a : List Char), matchCount a a = a.length := by
  intro a
  induction a with
  | nil => rfl
  | cons x xs ih => rw [matchCount]; simp [ih]; omega

theorem eq_of_matchCount_full : ∀ (a b : List Char),
    matchCount a b = a.length → a.length = b.length → a = b := by
  intro a
  induction a with
  | nil =>
    intro b _ hlen
    cases b
    · rfl
    · exact absurd hlen (by simp)
  | cons x xs ih =>
    intro b hm hlen
    cases b with
    | nil => exact absurd hlen (by simp)
    | cons y ys =>
      rw [matchCount] at hm
      have hle := matchCount_le_left xs ys
      by_cases h : x = y
      · subst h
        rw [if_pos rfl] at hm
        simp only [List.length_cons] at hm hlen
        rw [ih ys (by omega) (by omega)]
      · rw [if_neg h] at hm
        simp only [List.length_cons] at hm
        omega

theorem seqRatio100_self (a : String) : seqRatio100 a a = 100 := by
  unfold seqRatio100
  rw [matchCount_self]
  by_cases h : a.data.length = 0
  · rw [if_pos (by omega)]
  · rw [if_neg (by omega)]
    have : 2 * a.data.length * 100 = 100 * (a.data.length + a.data.length) := by ring
    rw [this, Nat.mul_div_cancel _ (by omega)]

theorem seqRatio100_le (a b : String) : seqRatio100 a b ≤ 100 := by
  unfold seqRatio100
  by_cases h : a.data.length + b.data.length = 0
  · rw [if_pos h]
  · rw [if_neg h]
    have h1 := matchCount_le_left a.data b.data
    have h2 := matchCount_le_right a.data b.data
    calc 2 * matchCount a.data b.data * 100 / (a.data.length + b.data.length)
        ≤ (a.data.length + b.data.length) * 100 / (a.data.length + b.data.length) :=
          Nat.div_le_div_right (by omega)
      _ = 100 := by
          rw [Nat.mul_comm, Nat.mul_div_cancel _ (by omega)]

theorem string_eq_of_data {a b : String} (h : a.data = b.data) : a = b :=
  String.ext h

theorem seqRatio100_eq_100_iff (a b : String) : seqRatio100 a b = 100 ↔ a = b := by
  constructor
  · intro h
    unfold seqRatio100 at h
    by_cases ht : a.data.length + b.data.length = 0
    · rw [if_pos ht] at h
      apply string_eq_of_data
      have ha : a.data = [] := List.length_eq_zero.mp (by omega)
      have hb : b.data = [] := List.length_eq_zero.mp (by omega)
      rw [ha, hb]
    · rw [if_neg ht] at h
      have hdiv : 100 * (a.data.length + b.data.length) ≤ 2 * matchCount a.data b.data * 100 :=
        (Nat.le_div_iff_mul_le (Nat.pos_of_ne_zero ht)).mp (le_of_eq h.symm)
      have h1 := matchCount_le_left a.data b.data
      have h2 := matchCount_le_right a.data b.data
      have hmc : matchCount a.data b.data = a.data.length ∧ a.data.length = b.data.length := by
        constructor <;> omega
      exact string_eq_of_data (eq_of_matchCount_full a.data b.data hmc.1 hmc.2)
  · intro h
    rw [h]
    exact seqRatio100_self b

/-! ### Whitespace-split lemmas -/

theorem data_ne_nil_of_ne_empty {a : String} (h : a ≠ "") : a.data ≠ [] := by
  intro hd
  exact h (string_eq_of_data (by rw [hd]))

theorem splitWSAux_no_ws : ∀ {l : List Char}, (∀ c ∈ l, isPySpace c = false) →
    ∀ acc : List Char, acc.reverse ++ l ≠ [] →
    splitWSAux l acc = [⟨acc.reverse ++ l⟩] := by
  intro l
  induction l with
  | nil =>
    intro _ acc hne
    rw [splitWSAux]
    have hacc : acc.isEmpty = false := by
      cases acc
      · simp at hne
      · rfl
    rw [if_neg (by rw [hacc]; exact Bool.false_ne_true)]
    simp
  | cons c rest ih =>
    intro hl acc _
    rw [splitWSAux]
    rw [if_neg (by rw [hl c (by simp)]; exact Bool.false_ne_true)]
    rw [ih (fun d hd => hl d (List.mem_cons_of_mem c hd)) (c :: acc) (by simp)]
    simp

theorem splitWSAux_break (r : List Char) : ∀ {l : List Char},
    (∀ c ∈ l, isPySpace c = false) →
    ∀ acc : List Char, acc.reverse ++ l ≠ [] →
    splitWSAux (l ++ ' ' :: r) acc = ⟨acc.reverse ++ l⟩ :: splitWSAux r [] := by
  intro l
  induction l with
  | nil =>
    intro _ acc hne
    rw [List.nil_append, splitWSAux, if_pos (by rw [isPySpace_space])]
    have hacc : acc.isEmpty = false := by
      cases acc
      · simp at hne
      · rfl
    rw [if_neg (by rw [hacc]; exact Bool.false_ne_true)]
    simp
  | cons c rest ih =>
    intro hl acc _
    rw [List.cons_append, splitWSAux]
    rw [if_neg (by rw [hl c (by simp)]; exact Bool.false_ne_true)]
    rw [ih (fun d hd => hl d (List.mem_cons_of_mem c hd)) (c :: acc) (by simp)]
    simp

theorem pySplit_pair (a b : String) (ha : a ≠ "") (hb : b ≠ "")
    (hna : ∀ c ∈ a.data, isPySpace c = false)
    (hnb : ∀ c ∈ b.data, isPySpace c = false) :
    pySplit (a ++ " " ++ b) = [a, b] := by
  unfold pySplit
  have hdata : (a ++ " " ++ b).data = a.data ++ ' ' :: b.data := by
    show (a.data ++ [' ']) ++ b.data = a.data ++ ' ' :: b.data
    simp
  rw [hdata, splitWSAux_break b.data hna [] (by simpa using data_ne_nil_of_ne_empty ha),
    splitWSAux_no_ws hnb [] (by simpa using data_ne_nil_of_ne_empty hb)]
  simp

/-! ### Claims about the matching engine -/

/-- **C4.** The surname-collision guard.  First, the concrete scenario: a
candidate list holding only `"John Smith"` queried with `"Mark Smith"`, no
league or team, and the default thresholds yields a MISS (`none`) — in
particular never an AUTO — for every state of the report store.  Second, the
general cap rule: whenever the alignment's last-name similarity is at least
75 or the aligned last names are equal, while the nickname-canonicalized
first names differ, are not prefix-compatible, and have similarity below 80,
the capped token score is strictly below the suggest threshold. -/
theorem surname_collision_guard :
    (∀ getReport : Int → ReportFetch,
      best_similar_report (fun _ => 0) getReport [⟨1, "John Smith", "", ""⟩]
        "Mark Smith" "" "" 95 85 3 true = none)
    ∧ (∀ (p n : String) (suggest_threshold score : Int),
        (75 ≤ (compute_alignment p n).last_sim ∨
          (compute_alignment p n).last_p = (compute_alignment p n).last_n) →
        nickCanon (compute_alignment p n).first_p ≠
          nickCanon (compute_alignment p n).first_n →
        ((compute_alignment p n).first_sim : Int) < 80 →
        ¬(pyStartswith (compute_alignment p n).first_p (compute_alignment p n).first_n ∨
          pyStartswith (compute_alignment p n).first_n (compute_alignment p n).first_p) →
        1 ≤ suggest_threshold →
        capSurname p n suggest_threshold score < suggest_threshold) := by
  constructor
  · intro getReport
    rfl
  · intro p n sth s h1 h2 h3 h4 h5
    unfold capSurname
    rw [if_pos h1, if_pos ⟨h2, h3, h4⟩]
    have hmin : min s (sth - 1) ≤ sth - 1 := min_le_right _ _
    omega

/-- **C4, witness.** The cap rule applied at the collision pair itself
(`"mark smith"` vs `"john smith"`, raw token score 100, suggest threshold
85), alongside the concrete MISS. -/
theorem surname_collision_guard_witness :
    best_similar_report (fun _ => 0) (fun _ => .found) [⟨1, "John Smith", "", ""⟩]
        "Mark Smith" "" "" 95 85 3 true = none
    ∧ capSurname "mark smith" "john smith" 85 100 < 85 :=
  ⟨surname_collision_guard.1 (fun _ => .found),
   surname_collision_guard.2 "mark smith" "john smith" 85 100 (by decide) (by decide)
     (by decide) (by decide) (by decide)⟩

theorem exactScan_found (getClock : Nat → ℚ) (max_secs : ℚ) (transliterate : Bool)
    (pn pfc pl lg tn : String) (hclock : ∀ k, ¬ getClock k > max_secs) :
    ∀ (cands : List Candidate) (k : Nat),
      (∃ c ∈ cands, exactCandidateHit transliterate pn pfc pl lg tn c = true) →
      ∃ rid nm, exactScan getClock max_secs transliterate pn pfc pl lg tn cands k =
        .found rid nm := by
  intro cands
  induction cands with
  | nil =>
    intro k h
    rcases h with ⟨c, hc, _⟩
    exact absurd hc (List.not_mem_nil c)
  | cons c rest ih =>
    intro k h
    rw [exactScan, if_neg (hclock k)]
    by_cases hc : exactCandidateHit transliterate pn pfc pl lg tn c = true
    · rw [if_pos hc]
      exact ⟨c.id, ⟨pyStrip c.player_name.data⟩, rfl⟩
    · rw [if_neg hc]
      apply ih (k + 1)
      rcases h with ⟨d, hd, hdh⟩
      rcases List.mem_cons.mp hd with rfl | hmem
      · exact absurd hdh hc
      · exact ⟨d, hmem, hdh⟩

/-- **C5.** Whenever some candidate passes the exact-match check —
normalized-name equality, or a last-name agreement (exact, phonetic, or
typo-tolerant) with equal nickname-canonicalized first names — together with
the league/team filters and the surname-alignment guard, the scanner (given
it is not timed out) returns an immediate SUGGEST with score exactly 100,
never an AUTO. -/
theorem exact_match_immediate_suggest
    (getClock : Nat → ℚ) (getReport : Int → ReportFetch) (candidates : List Candidate)
    (player team league : String) (auto_threshold suggest_threshold : Int)
    (max_secs : ℚ) (transliterate : Bool)
    (hp : (⟨pyStrip player.data⟩ : String) ≠ "")
    (hclock : ∀ k, ¬ getClock k > max_secs)
    (hhit : ∃ c ∈ candidates, exactCandidateHit transliterate
      (normalize_name player transliterate)
      (nickCanon ((pySplit (normalize_name player transliterate)).headD ""))
      ((pySplit (normalize_name player transliterate)).getLastD "")
      (stripLower league) (stripLower team) c = true) :
    ∃ rid nameRaw,
      best_similar_report getClock getReport candidates player team league
        auto_threshold suggest_threshold max_secs transliterate =
      some (.suggest rid nameRaw 100) := by
  obtain ⟨rid, nm, he⟩ := exactScan_found getClock max_secs transliterate
    (normalize_name player transliterate)
    (nickCanon ((pySplit (normalize_name player transliterate)).headD ""))
    ((pySplit (normalize_name player transliterate)).getLastD "")
    (stripLower league) (stripLower team) hclock candidates 0 hhit
  refine ⟨rid, nm, ?_⟩
  unfold best_similar_report
  rw [if_neg hp]
  have hne : candidates.isEmpty = false := by
    rcases hhit with ⟨c, hc, _⟩
    cases candidates
    · exact absurd hc (List.not_mem_nil c)
    · rfl
  simp only [hne, Bool.false_eq_true, if_false, he]

/-- **C5, witness.** Query `"Konstantinos Papadopoulos"` with a stored
candidate `"Kostas Papadopoulos"` (nickname-canonical equality) and no hints:
an immediate suggestion with score 100. -/
theorem exact_match_immediate_suggest_witness :
    ∃ rid nameRaw,
      best_similar_report (fun _ => 0) (fun _ => .found)
        [⟨2, "Kostas Papadopoulos", "", ""⟩] "Konstantinos Papadopoulos" "" ""
        95 85 3 true = some (.suggest rid nameRaw 100) :=
  exact_match_immediate_suggest (fun _ => 0) (fun _ => .found)
    [⟨2, "Kostas Papadopoulos", "", ""⟩] "Konstantinos Papadopoulos" "" ""
    95 85 3 true (by decide) (fun k => by norm_num)
    ⟨⟨2, "Kostas Papadopoulos", "", ""⟩, by simp, by decide⟩

/-- **C8.** If the wall-clock budget is already exceeded at the first
iteration's check, the scanner returns `None` (a miss) for every candidate
list, query, and threshold configuration — it neither raises nor keeps
scanning. -/
theorem fuzzy_timeout_returns_none (getClock : Nat → ℚ) (getReport : Int → ReportFetch)
    (candidates : List Candidate) (player team league : String)
    (auto_threshold suggest_threshold : Int) (max_secs : ℚ) (transliterate : Bool)
    (h : getClock 0 > max_secs) :
    best_similar_report getClock getReport candidates player team league
      auto_threshold suggest_threshold max_secs transliterate = none := by
  unfold best_similar_report
  by_cases hp : (⟨pyStrip player.data⟩ : String) = ""
  · rw [if_pos hp]
  · rw [if_neg hp]
    cases candidates with
    | nil => rfl
    | cons c rest =>
      have he : exactScan getClock max_secs transliterate
          (normalize_name player transliterate)
          (nickCanon ((pySplit (normalize_name player transliterate)).headD ""))
          ((pySplit (normalize_name player transliterate)).getLastD "")
          (stripLower league) (stripLower team) (c :: rest) 0 = .timeout := by
        rw [exactScan, if_pos h]
      simp only [List.isEmpty_cons, Bool.false_eq_true, if_false, he]

/-- **C8, witness.** A clock already 4 seconds in with a 3-second budget:
the scan gives up with `none`. -/
theorem fuzzy_timeout_returns_none_witness :
    best_similar_report (fun _ => 4) (fun _ => .found) [⟨1, "John Smith", "", ""⟩]
      "John Smith" "" "" 95 85 3 true = none :=
  fuzzy_timeout_returns_none (fun _ => 4) (fun _ => .found) [⟨1, "John Smith", "", ""⟩]
    "John Smith" "" "" 95 85 3 true (by norm_num)

/-- **C7.** The alignment scorer computes both the direct and the crossed
alignment and keeps the one with the higher weighted score
`lastSim * 2 + firstSim`; consequently, aligning a reversed two-token query
`"B A"` against a stored `"A B"` yields exactly the first/last similarities
of aligning `"A B"` against itself (both 100/100 via the crossed path). -/
theorem alignment_crossed_reversal :
    (∀ p n : String,
      (compute_alignment p n).last_sim * 2 + (compute_alignment p n).first_sim =
        max (seqRatio100 ((pySplit p).getLastD "") ((pySplit n).getLastD "") * 2 +
              seqRatio100 ((pySplit p).headD "") ((pySplit n).headD ""))
            (seqRatio100 ((pySplit p).getLastD "") ((pySplit n).headD "") * 2 +
              seqRatio100 ((pySplit p).headD "") ((pySplit n).getLastD "")))
    ∧ (∀ a b : String, a ≠ "" → b ≠ "" →
        (∀ c ∈ a.data, isPySpace c = false) → (∀ c ∈ b.data, isPySpace c = false) →
        (compute_alignment (b ++ " " ++ a) (a ++ " " ++ b)).first_sim =
          (compute_alignment (a ++ " " ++ b) (a ++ " " ++ b)).first_sim ∧
        (compute_alignment (b ++ " " ++ a) (a ++ " " ++ b)).last_sim =
          (compute_alignment (a ++ " " ++ b) (a ++ " " ++ b)).last_sim) := by
  have hmax : ∀ p n : String,
      (compute_alignment p n).last_sim * 2 + (compute_alignment p n).first_sim =
        max (seqRatio100 ((pySplit p).getLastD "") ((pySplit n).getLastD "") * 2 +
              seqRatio100 ((pySplit p).headD "") ((pySplit n).headD ""))
            (seqRatio100 ((pySplit p).getLastD "") ((pySplit n).headD "") * 2 +
              seqRatio100 ((pySplit p).headD "") ((pySplit n).getLastD "")) := by
    intro p n
    unfold compute_alignment
    dsimp only
    split
    · next hgt => exact (Nat.max_eq_right (le_of_lt hgt)).symm
    · next hle => exact (Nat.max_eq_left (not_lt.mp hle)).symm
  refine ⟨hmax, ?_⟩
  intro a b ha hb hna hnb
  have hrev : pySplit (b ++ " " ++ a) = [b, a] := pySplit_pair b a hb ha hnb hna
  have hfwd : pySplit (a ++ " " ++ b) = [a, b] := pySplit_pair a b ha hb hna hnb
  by_cases hab : a = b
  · subst hab
    constructor <;> rfl
  · have hRaa : seqRatio100 a a = 100 := seqRatio100_self a
    have hRbb : seqRatio100 b b = 100 := seqRatio100_self b
    have hRab : seqRatio100 a b ≤ 99 := by
      have h1 := seqRatio100_le a b
      have h2 : seqRatio100 a b ≠ 100 := fun h =>
        hab ((seqRatio100_eq_100_iff a b).mp h)
      omega
    have hRba : seqRatio100 b a ≤ 99 := by
      have h1 := seqRatio100_le b a
      have h2 : seqRatio100 b a ≠ 100 := fun h =>
        hab (((seqRatio100_eq_100_iff b a).mp h).symm)
      omega
    constructor
    · unfold compute_alignment
      rw [hrev, hfwd]
      simp only [List.headD_cons, List.getLastD_cons, List.getLastD_nil]
      rw [if_pos (show seqRatio100 a a * 2 + seqRatio100 b b >
            seqRatio100 a b * 2 + seqRatio100 b a by rw [hRaa, hRbb]; omega),
        if_neg (show ¬ (seqRatio100 b a * 2 + seqRatio100 a b >
            seqRatio100 b b * 2 + seqRatio100 a a) by rw [hRaa, hRbb]; omega)]
      dsimp only
      rw [hRaa, hRbb]
    · unfold compute_alignment
      rw [hrev, hfwd]
      simp only [List.headD_cons, List.getLastD_cons, List.getLastD_nil]
      rw [if_pos (show seqRatio100 a a * 2 + seqRatio100 b b >
            seqRatio100 a b * 2 + seqRatio100 b a by rw [hRaa, hRbb]; omega),
        if_neg (show ¬ (seqRatio100 b a * 2 + seqRatio100 a b >
            seqRatio100 b b * 2 + seqRatio100 a a) by rw [hRaa, hRbb]; omega)]
      dsimp only
      rw [hRaa, hRbb]

/-- **C7, witness.** The reversed query `"smith john"` against the stored
`"john smith"` aligns exactly like `"john smith"` against itself, and the
returned weighted score is the max of the direct and crossed scores at that
pair. -/
theorem alignment_crossed_reversal_witness :
    ((compute_alignment ("john" ++ " " ++ "smith") ("smith" ++ " " ++ "john")).first_sim =
      (compute_alignment ("smith" ++ " " ++ "john") ("smith" ++ " " ++ "john")).first_sim ∧
     (compute_alignment ("john" ++ " " ++ "smith") ("smith" ++ " " ++ "john")).last_sim =
      (compute_alignment ("smith" ++ " " ++ "john") ("smith" ++ " " ++ "john")).last_sim) :=
  alignment_crossed_reversal.2 "smith" "john" (by decide) (by decide) (by decide) (by decide)

/-! ## Cosine similarity (`utils/embeddings.py`) -/

/-- `sum(x * y for x, y in zip(a, b))`. -/
def dotQ (a b : List ℚ) : ℚ :=
  (List.zipWith (· * ·) a b).sum

/-- `sum(x * x for x in a)`: the squared Euclidean norm. -/
def sumSq (a : List ℚ) : ℚ :=
  (a.map fun x => x * x).sum

/-- `embeddings.cosine` (the pure-python fallback branch; the numpy branch
computes the same guarded quotient).  Floats are modelled as rationals and
`math.sqrt` as the oracle `sqrtF`. -/
def cosine (sqrtF : ℚ → ℚ) (a b : List ℚ) : ℚ :=
  let na := sqrtF (sumSq a)
  let nb := sqrtF (sumSq b)
  if na = 0 ∨ nb = 0 then 0 else dotQ a b / (na * nb)

/-- **C9.** With any square-root oracle sending 0 to 0 (as `math.sqrt`
does): whenever either squared norm is 0 — equivalently, by the last
conjunct, whenever either vector is all zeros — `cosine` returns `0.0`
through its explicit guard rather than dividing; and whenever both norms are
non-zero it returns exactly the dot product divided by the product of the
norms.  Division is never reached with a zero denominator. -/
theorem cosine_zero_norm_safe (sqrtF : ℚ → ℚ) (hsqrt0 : sqrtF 0 = 0) :
    (∀ a b : List ℚ, sumSq a = 0 ∨ sumSq b = 0 → cosine sqrtF a b = 0)
    ∧ (∀ a b : List ℚ, sqrtF (sumSq a) ≠ 0 → sqrtF (sumSq b) ≠ 0 →
        cosine sqrtF a b = dotQ a b / (sqrtF (sumSq a) * sqrtF (sumSq b)))
    ∧ (∀ a : List ℚ, sumSq a = 0 ↔ ∀ x ∈ a, x = 0) := by
  refine ⟨?_, ?_, ?_⟩
  · intro a b h
    unfold cosine
    rcases h with h | h <;> rw [h, hsqrt0]
    · rw [if_pos (Or.inl rfl)]
    · rw [if_pos (Or.inr rfl)]
  · intro a b ha hb
    unfold cosine
    rw [if_neg (by rintro (h | h); exacts [ha h, hb h])]
  · intro a
    induction a with
    | nil => simp [sumSq]
    | cons x t ih =>
      unfold sumSq at ih ⊢
      rw [List.map_cons, List.sum_cons]
      constructor
      · intro h
        have hx2 : 0 ≤ x * x := mul_self_nonneg x
        have hs : 0 ≤ (t.map fun y => y * y).sum :=
          List.sum_nonneg (by rintro y hy; obtain ⟨z, _, rfl⟩ := List.mem_map.mp hy
                              exact mul_self_nonneg z)
        have hx : x * x = 0 := by linarith
        intro y hy
        rcases List.mem_cons.mp hy with rfl | hyt
        · exact mul_self_eq_zero.mp hx
        · exact (ih.mp (by linarith)) y hyt
      · intro h
        have hx : x = 0 := h x (by simp)
        have ht : (t.map fun y => y * y).sum = 0 :=
          ih.mpr fun y hy => h y (List.mem_cons_of_mem x hy)
        rw [hx, ht]
        ring

/-- **C9, witness.** With the identity as square-root oracle: the zero
vector against `[3, 4]` yields 0 through the guard, and the zero-norm
characterization at the zero vector. -/
theorem cosine_zero_norm_safe_witness :
    cosine id [(0 : ℚ), 0] [3, 4] = 0
    ∧ (sumSq [(0 : ℚ), 0] = 0 ↔ ∀ x ∈ [(0 : ℚ), 0], x = 0) :=
  ⟨(cosine_zero_norm_safe id rfl).1 [0, 0] [3, 4] (Or.inl (by norm_num [sumSq])),
   (cosine_zero_norm_safe id rfl).2.2 [0, 0]⟩

/-! ## Scout service, cached-report path (`services/scout.py`)

`get_or_generate_scout_report` with the external collaborators as oracles:
the LLM (`gen`, `statsGen`), `replace_stats_sections` (`replaceStats`), the
staleness test on a parsed timestamp (`staleCheck`), `int(time.time())`
(`nowTs`) and `now()` (`nowIso`), and `extract_canonical_player`
(`extractCanonical`).  The payload model keeps the fields the claims read
(`player`, `report_md`, `cached`, `stats_refreshed`); the parse/render
fields (`report_html`, `info_fields`, …) are markdown post-processing by
external collaborators.

The row returned by `find_report_by_query_key` is modelled as the literal
Python dict the source builds — keys `id`, `payload`, `report_md`,
`player_name`, `created_at`, `cached` — so that `cached_row.get("updated_at")`
is provably `None`. -/

inductive PyVal where
  | none
  | str (v : String)
  | int (v : Int)
  | bool (v : Bool)
  /-- an opaque `jsonb` payload object -/
  | obj (ref : Nat)
deriving DecidableEq, Repr

/-- Python `dict.get(key)`: `None` when the key is absent. -/
def dget (d : List (String × PyVal)) (k : String) : PyVal :=
  ((d.find? fun p => p.1 == k).map Prod.snd).getD .none

/-- A row of `public.reports` (the columns this path reads). -/
structure ReportRow where
  id : Int
  user_id : String
  query_key : String
  payload : PyVal
  report_md : String
  player_name : String
  created_at : Option String
  cached : Bool
deriving DecidableEq, Repr

/-- `order by created_at desc, id desc`: does `r` beat `s`? -/
def rowWins (r s : ReportRow) : Bool :=
  match r.created_at, s.created_at with
  | some a, some b => if a = b then decide (s.id < r.id) else decide (b < a)
  | some _, Option.none => true
  | Option.none, some _ => false
  | Option.none, Option.none => decide (s.id < r.id)

/-- `db.find_report_by_query_key`: the best row for `(user_id, query_key)`
rendered as the dict of the source (db.py lines 305–333). -/
def find_report_by_query_key (reports : List ReportRow) (user_id query_key : String) :
    Option (List (String × PyVal)) :=
  let hits := reports.filter fun r => r.user_id == user_id && r.query_key == query_key
  match hits.foldl (fun acc r =>
      match acc with
      | Option.none => some r
      | some best => if rowWins r best then some r else some best) Option.none with
  | Option.none => Option.none
  | some r =>
    some [("id", .int r.id), ("payload", r.payload),
      ("report_md", .str r.report_md), ("player_name", .str r.player_name),
      ("created_at", match r.created_at with | some t => .str t | Option.none => .none),
      ("cached", .bool r.cached)]

/-- `db.make_query_key` / `_canonical_query_key`: `json.dumps` with sorted
keys, modelled as a deterministic serialization of the query tuple (the
exact JSON rendering is irrelevant to the claims; only determinism and the
field set matter). -/
def make_query_key (player team league season : String) (use_web : Bool) : String :=
  "league=" ++ league ++ "|player=" ++ player ++ "|season=" ++ season ++
    "|team=" ++ team ++ "|use_web=" ++ (if use_web then "true" else "false")

/-- `db.update_report_by_id` (db.py lines 372–404), restricted to the fields
of the row model; sets `created_at = now()`. -/
def update_report_by_id (reports : List ReportRow) (user_id : String) (report_id : Int)
    (player_name report_md : String) (payload : PyVal) (cached : Bool)
    (nowIso : String) : List ReportRow :=
  reports.map fun r =>
    if r.id = report_id ∧ r.user_id = user_id then
      { r with
        player_name := player_name
        report_md := report_md
        payload := payload
        cached := cached
        created_at := some nowIso }
    else r

/-- The state `get_or_generate_scout_report` can touch: the credit ledger
(through `spend_credits`) and the reports table (through
`update_report_by_id`). -/
structure ScoutState where
  ledger : DBState
  reports : List ReportRow
deriving DecidableEq, Repr

/-- The payload slice of `_build_payload_from_report` the claims read. -/
structure ScoutPayload where
  player : String
  report_md : String
  cached : Bool
  stats_refreshed : Bool
deriving DecidableEq, Repr

/-- `services/scout.get_or_generate_scout_report` (scout.py lines 113–374). -/
def get_or_generate_scout_report
    (gen : String → String → String → String → Bool → String)
    (statsGen : String → String) (replaceStats : String → String → String)
    (staleCheck : String → Bool) (nowTs : Int) (nowIso : String)
    (extractCanonical : String → String)
    (st : ScoutState) (clientPresent : Bool)
    (player team league season : String) (use_web refresh : Bool)
    (user_id : Option String) : ScoutState × ScoutPayload :=
  let player : String := ⟨pyStrip player.data⟩
  let team : String := ⟨pyStrip team.data⟩
  let league : String := ⟨pyStrip league.data⟩
  let season : String := ⟨pyStrip season.data⟩
  let cachedResult : Option (ScoutState × ScoutPayload) :=
    if refresh then Option.none
    else
      let query_key := make_query_key player team league season use_web
      match user_id with
      | Option.none => Option.none
      | some uid =>
        if uid = "" then Option.none
        else
          match find_report_by_query_key st.reports uid query_key with
          | Option.none => Option.none
          | some row =>
            let report_md := match dget row "report_md" with | .str s => s | _ => ""
            let cached_id := match dget row "id" with | .int i => i | _ => 0
            let updated_at_str := dget row "updated_at"
            let needs_stats_refresh :=
              match updated_at_str with
              | .str u => u ≠ "" && staleCheck u
              | _ => false
            let player_name_row := match dget row "player_name" with | .str s => s | _ => ""
            let pn := if player_name_row = "" then player else player_name_row
            if needs_stats_refresh && clientPresent && use_web then
              -- charge one credit; on any failure serve the stale report
              match spend_credits st.ledger uid 1 "stats_refresh" "stats_refresh"
                  ("stats_refresh_" ++ toString cached_id ++ "_" ++ toString nowTs) with
              | (st1, .ok _) =>
                let fresh := statsGen pn
                let updated := replaceStats report_md fresh
                if updated ≠ report_md then
                  some (⟨st1, update_report_by_id st.reports uid cached_id pn updated
                      (dget row "payload") true nowIso⟩,
                    ⟨pn, updated, true, true⟩)
                else some (⟨st1, st.reports⟩, ⟨pn, report_md, true, true⟩)
              | (_, .error _) => some (st, ⟨pn, report_md, true, true⟩)
            else
              some (st, ⟨pn, report_md, true, needs_stats_refresh⟩)
  match cachedResult with
  | some res => res
  | Option.none =>
    -- miss or refresh: call the generation collaborator; persistence is the
    -- caller's job (`app.py`), so neither table is touched here
    let report_md := gen player team league season use_web
    let canonical := extractCanonical report_md
    (st, ⟨if canonical = "" then player else canonical, report_md, false, false⟩)

/-- The dict built by `find_report_by_query_key` has no `updated_at` key, so
`cached_row.get("updated_at")` is `None` — which is why the stats-refresh
credit charge on the cached path is unreachable. -/
theorem find_report_no_updated_at (reports : List ReportRow) (u k : String)
    {row : List (String × PyVal)}
    (h : find_report_by_query_key reports u k = some row) :
    dget row "updated_at" = .none := by
  unfold find_report_by_query_key at h
  dsimp only at h
  rcases hf : List.foldl (fun acc r =>
      match acc with
      | Option.none => some r
      | some best => if rowWins r best then some r else some best) Option.none
      (reports.filter fun r => r.user_id == u && r.query_key == k) with _ | r
  · rw [hf] at h
    exact absurd h (by simp)
  · rw [hf] at h
    have hrow : _ = row := Option.some.inj h
    subst hrow
    rfl

/-- **C3.** On a cached hit — `refresh` not requested, a non-empty user, and
`find_report_by_query_key` returning a stored row for the query's key — the
resolve-or-generate operation returns the stored report (`report_md`
verbatim, `cached = true`) and mutates nothing: the ledger (balances and
entries) and the reports table after the call are exactly those before it. -/
theorem cached_hit_returns_stored_report_no_ledger_mutation
    (gen : String → String → String → String → Bool → String)
    (statsGen : String → String) (replaceStats : String → String → String)
    (staleCheck : String → Bool) (nowTs : Int) (nowIso : String)
    (extractCanonical : String → String)
    (st : ScoutState) (clientPresent : Bool)
    (player team league season : String) (use_web : Bool) (uid : String)
    (row : List (String × PyVal))
    (huid : uid ≠ "")
    (hrow : find_report_by_query_key st.reports uid
      (make_query_key ⟨pyStrip player.data⟩ ⟨pyStrip team.data⟩
        ⟨pyStrip league.data⟩ ⟨pyStrip season.data⟩ use_web) = some row) :
    get_or_generate_scout_report gen statsGen replaceStats staleCheck nowTs nowIso
      extractCanonical st clientPresent player team league season use_web false
      (some uid) =
    (st, ⟨(if (match dget row "player_name" with | .str s => s | _ => "") = ""
            then (⟨pyStrip player.data⟩ : String)
            else (match dget row "player_name" with | .str s => s | _ => "")),
          (match dget row "report_md" with | .str s => s | _ => ""), true, false⟩) := by
  have hupd := find_report_no_updated_at st.reports uid
    (make_query_key ⟨pyStrip player.data⟩ ⟨pyStrip team.data⟩
      ⟨pyStrip league.data⟩ ⟨pyStrip season.data⟩ use_web) hrow
  unfold get_or_generate_scout_report
  simp only [if_neg huid, hrow, hupd, Bool.false_and, Bool.false_eq_true, if_false]

/-- **C3, witness.** A concrete cached hit: one stored row for user `"u1"`
and the query `"Luka Doncic"`, no refresh: the stored markdown comes back
with `cached = true`, no `stats_refreshed`, and the state (ledger with
balance 2 and one prior entry, reports table) is returned untouched — even
with an adversarial staleness oracle that calls everything stale. -/
theorem cached_hit_returns_stored_report_witness :
    get_or_generate_scout_report (fun _ _ _ _ _ => "generated") (fun _ => "stats")
      (fun _ fresh => fresh) (fun _ => true) 0 "2026-02-02T00:00:00"
      (fun _ => "")
      ⟨⟨[("u1", 2)], [⟨"u1", -1, "scout", "scout", "req0"⟩]⟩,
       [⟨7, "u1", make_query_key "Luka Doncic" "" "" "" true, .obj 0,
         "# stored report", "Luka Doncic", some "2026-01-01T00:00:00", true⟩]⟩
      true "Luka Doncic" "" "" "" true false (some "u1") =
    (⟨⟨[("u1", 2)], [⟨"u1", -1, "scout", "scout", "req0"⟩]⟩,
      [⟨7, "u1", make_query_key "Luka Doncic" "" "" "" true, .obj 0,
        "# stored report", "Luka Doncic", some "2026-01-01T00:00:00", true⟩]⟩,
     ⟨"Luka Doncic", "# stored report", true, false⟩) := by
  have h := cached_hit_returns_stored_report_no_ledger_mutation
    (fun _ _ _ _ _ => "generated") (fun _ => "stats") (fun _ fresh => fresh)
    (fun _ => true) 0 "2026-02-02T00:00:00" (fun _ => "")
    ⟨⟨[("u1", 2)], [⟨"u1", -1, "scout", "scout", "req0"⟩]⟩,
     [⟨7, "u1", make_query_key "Luka Doncic" "" "" "" true, .obj 0,
       "# stored report", "Luka Doncic", some "2026-01-01T00:00:00", true⟩]⟩
    true "Luka Doncic" "" "" "" true "u1"
    [("id", .int 7), ("payload", .obj 0), ("report_md", .str "# stored report"),
     ("player_name", .str "Luka Doncic"),
     ("created_at", .str "2026-01-01T00:00:00"), ("cached", .bool true)]
    (by decide) (by decide)
  exact h.trans (by decide)

end EasyScout
